import Mathlib

/-!
Shallow embedding of the agent-acknowledgment and policy-reconciliation core
(file cmd/fleet/handleAck.go of the fleet-server repository), together with
theorems settling the specification claims about it.

Modelling conventions:
* Go strings are Lean String; byte-level operations are modelled on the
  character list (all inputs of interest are ASCII).
* Go int64 values are Lean Int; strconvAtoi enforces the 64-bit signed range
  exactly as strconv.Atoi does on a 64-bit platform.
* Effects are made explicit: the action cache and the store point-read are
  function parameters, the store responses are Except values, and every
  cache probe, store read and bulk update issued by the code is recorded in
  an operation trace (List StoreOp) returned next to the result.
* time.Now is an effect, so the RFC3339-UTC-formatted current time is passed
  in as a String parameter and written verbatim where the Go code writes the
  formatted timestamp.
-/

namespace FleetAck

/-- Decidable equality for Except results, used to evaluate the model on
concrete inputs. -/
instance {ε α : Type} [DecidableEq ε] [DecidableEq α] : DecidableEq (Except ε α) := fun x y =>
  match x, y with
  | Except.ok a, Except.ok b =>
    if h : a = b then isTrue (by rw [h]) else isFalse (by simp [h])
  | Except.error a, Except.error b =>
    if h : a = b then isTrue (by rw [h]) else isFalse (by simp [h])
  | Except.ok _, Except.error _ => isFalse (by simp)
  | Except.error _, Except.ok _ => isFalse (by simp)

/-- Errors that can flow through the ack pipeline. storeErr carries a store
failure message verbatim (covering read failures such as not-found and write
failures); canceled models the distinguished context.Canceled value. -/
inductive FleetError where
  | eventAgentIdMismatch : FleetError
  | storeErr : String → FleetError
  | canceled : FleetError
deriving DecidableEq, Repr

/-- The Error() string of a FleetError, as used by http.Error. -/
def FleetError.message : FleetError → String
  | FleetError.eventAgentIdMismatch => "event agentId mismatch"
  | FleetError.storeErr m => m
  | FleetError.canceled => "context canceled"

/-- The fields of model.Agent that the core reads and writes. -/
structure Agent where
  Id : String
  PolicyId : String
  PolicyRevisionIdx : Int
  PolicyCoordinatorIdx : Int
deriving DecidableEq, Repr

/-- An acknowledgment event; only the fields the core consults. -/
structure Event where
  AgentId : String
  ActionId : String
deriving DecidableEq, Repr

/-- An action record; the core only consults the Type field (written ty here
because Type is a Lean keyword) to group resolved actions. -/
structure Action where
  Id : String
  ty : String
deriving DecidableEq, Repr

/-- Go type policyAction: the parsed form of a policy action identifier. -/
structure policyAction where
  policyId : String
  revIdx : Int
  coordIdx : Int
deriving DecidableEq, Repr

/-- Go strings.Split with a one-character separator, on character lists.
Splitting the empty string yields one empty segment, as in Go. -/
def splitChar (sep : Char) : List Char → List (List Char)
  | [] => [[]]
  | c :: cs =>
    if c = sep then [] :: splitChar sep cs
    else
      match splitChar sep cs with
      | [] => [[c]]
      | p :: ps => (c :: p) :: ps

/-- Go strings.HasPrefix, on character lists. -/
def listStartsWith : List Char → List Char → Bool
  | [], _ => true
  | _ :: _, [] => false
  | p :: ps, c :: cs => p = c && listStartsWith ps cs

/-- Hexadecimal digit as accepted by the hex decoding inside uuid.FromString. -/
def isHexDigit (c : Char) : Bool :=
  c.isDigit || ('a' ≤ c && c ≤ 'f') || ('A' ≤ c && c ≤ 'F')

/-- Canonical UUID text: 36 characters, dashes at positions 8, 13, 18, 23,
hex digits everywhere else (case-insensitive), as in gofrs/uuid. -/
def canonicalOk (cs : List Char) : Bool :=
  cs.length = 36 &&
    (List.range 36).all fun i =>
      if i = 8 ∨ i = 13 ∨ i = 18 ∨ i = 23 then cs.getD i ' ' = '-'
      else isHexDigit (cs.getD i ' ')

/-- Hash-like UUID text: 32 hex digits with no dashes. -/
def hashLikeOk (cs : List Char) : Bool :=
  cs.length = 32 && cs.all isHexDigit

/-- decodePlain of gofrs/uuid: canonical or hash-like depending on length. -/
def plainOk (cs : List Char) : Bool :=
  if cs.length = 32 then hashLikeOk cs
  else if cs.length = 36 then canonicalOk cs
  else false

/-- decodeBraced of gofrs/uuid: a brace-enclosed plain form. -/
def bracedOk (cs : List Char) : Bool :=
  match cs with
  | [] => false
  | c :: rest =>
    c = '{' && rest ≠ [] && rest.getLast? = some '}' && plainOk rest.dropLast

/-- decodeURN of gofrs/uuid: the urn:uuid: prefixed plain form. -/
def urnOk (cs : List Char) : Bool :=
  listStartsWith "urn:uuid:".data cs && plainOk (cs.drop 9)

/-- uuid.FromString of gofrs/uuid succeeds: dispatches on the text length to
the canonical, hash-like, braced or URN decoder. No version check is made. -/
def uuidFromStringOk (s : String) : Bool :=
  let cs := s.data
  if cs.length = 32 then hashLikeOk cs
  else if cs.length = 34 ∨ cs.length = 38 then bracedOk cs
  else if cs.length = 36 then canonicalOk cs
  else if cs.length = 41 ∨ cs.length = 45 then urnOk cs
  else false

/-- The version nibble of a UUID text in hash-like or canonical form (the
high nibble of byte 6; character index 12 resp. 14). -/
def uuidVersionChar (s : String) : Option Char :=
  let cs := s.data
  if hashLikeOk cs then some (cs.getD 12 ' ')
  else if canonicalOk cs then some (cs.getD 14 ' ')
  else none

/-- Decimal value of a digit list. -/
def digitsToNat (ds : List Char) : Nat :=
  ds.foldl (fun n c => n * 10 + (c.toNat - 48)) 0

/-- Go strconv.Atoi on a 64-bit platform: optional sign, one or more decimal
digits, value within the signed 64-bit range; anything else is an error
(modelled as none). -/
def strconvAtoi (s : String) : Option Int :=
  match s.data with
  | [] => none
  | c :: rest =>
    let neg := c = '-'
    let ds := if c = '-' ∨ c = '+' then rest else c :: rest
    if ds = [] then none
    else if !ds.all (fun d => d.isDigit) then none
    else
      let n := digitsToNat ds
      if neg then
        if n ≤ 2 ^ 63 then some (-(n : Int)) else none
      else
        if n ≤ 2 ^ 63 - 1 then some (n : Int) else none

/-- Go func parsePolicyAction: split on colons into exactly four segments,
require the literal tag policy, a uuid.FromString-valid segment 1, and
Atoi-parseable segments 2 and 3; the policyId is segment 1 verbatim. -/
def parsePolicyAction (actionId : String) : Option policyAction :=
  let split := splitChar ':' actionId.data
  if split.length ≠ 4 then none
  else if String.mk (split.getD 0 []) ≠ "policy" then none
  else if !uuidFromStringOk (String.mk (split.getD 1 [])) then none
  else
    match strconvAtoi (String.mk (split.getD 2 [])) with
    | none => none
    | some revIdx =>
      match strconvAtoi (String.mk (split.getD 3 [])) with
      | none => none
      | some coordIdx =>
        some ⟨String.mk (split.getD 1 []), revIdx, coordIdx⟩

/-- Specification-side statement of the amended policy-action grammar, written
from the spec wording: exactly four colon-separated segments, segment 0 the
literal tag policy, segment 1 a syntactically valid UUID (any version, in any
textual form the UUID parser accepts), segments 2 and 3 decimal 64-bit signed
integers; on success the triple is (segment 1 verbatim, revIdx, coordIdx). -/
def policyActionGrammar (actionId : String) : Option policyAction :=
  let split := splitChar ':' actionId.data
  if split.length = 4 ∧ String.mk (split.getD 0 []) = "policy"
      ∧ uuidFromStringOk (String.mk (split.getD 1 [])) = true then
    match strconvAtoi (String.mk (split.getD 2 [])), strconvAtoi (String.mk (split.getD 3 [])) with
    | some revIdx, some coordIdx => some ⟨String.mk (split.getD 1 []), revIdx, coordIdx⟩
    | some _, none => none
    | none, _ => none
  else none

/-- Strict lexicographic order on (revision, coordinator) pairs; the beat
condition of the reconciler reads pairLex current candidate. -/
def pairLex (p q : Int × Int) : Prop :=
  p.1 < q.1 ∨ (p.1 = q.1 ∧ p.2 < q.2)

instance (p q : Int × Int) : Decidable (pairLex p q) := by
  unfold pairLex; infer_instance

/-- Reflexive closure of pairLex. -/
def pairLe (p q : Int × Int) : Prop :=
  p = q ∨ pairLex p q

/-- The applied (revision, coordinator) pair currently recorded on the agent. -/
def agentPair (agent : Agent) : Int × Int :=
  (agent.PolicyRevisionIdx, agent.PolicyCoordinatorIdx)

/-- One iteration of the winner-selection loop of _handlePolicyChange: state
is (found, currRev, currCoord); a parseable candidate for the agents policy
whose pair beats the current winner replaces it and sets found. -/
def winnerStep (agent : Agent) (st : Bool × Int × Int) (a : String) : Bool × Int × Int :=
  match parsePolicyAction a with
  | none => st
  | some action =>
    if action.policyId = agent.PolicyId ∧ pairLex st.2 (action.revIdx, action.coordIdx)
    then (true, action.revIdx, action.coordIdx)
    else st

/-- The winner-selection loop of _handlePolicyChange over the whole batch,
started from the agents current pair with found = false. -/
def policyWinner (agent : Agent) (actionIds : List String) : Bool × Int × Int :=
  actionIds.foldl (winnerStep agent) (false, agent.PolicyRevisionIdx, agent.PolicyCoordinatorIdx)

/-- Pairs of candidates that parse and carry the agents policy id. -/
def matchingPairs (agent : Agent) (actionIds : List String) : List (Int × Int) :=
  actionIds.filterMap fun a =>
    match parsePolicyAction a with
    | none => none
    | some action =>
      if action.policyId = agent.PolicyId then some (action.revIdx, action.coordIdx) else none

/-- Pairs of eligible candidates in the sense of the spec: parseable, for the
agents policy, and lexicographically strictly above the agents current pair. -/
def eligiblePairs (agent : Agent) (actionIds : List String) : List (Int × Int) :=
  (matchingPairs agent actionIds).filter fun p => decide (pairLex (agentPair agent) p)

/-- A JSON-able field value appearing in the partial update document. -/
inductive FieldVal where
  | intVal : Int → FieldVal
  | strVal : String → FieldVal
deriving DecidableEq, Repr

/-- Modelled from the spec: the dl package constants naming the persisted
agent fields are outside src/; the spec names a revision-index field, a
coordinator-index field and an update-timestamp field. -/
def FieldPolicyRevisionIdx : String := "policy_revision_idx"

/-- Modelled from the spec: the coordinator-index field name of the dl package. -/
def FieldPolicyCoordinatorIdx : String := "policy_coordinator_idx"

/-- Modelled from the spec: the update-timestamp field name of the dl package. -/
def FieldUpdatedAt : String := "updated_at"

/-- Modelled from the spec: the dl package constant naming the agents index. -/
def FleetAgents : String := ".fleet-agents"

/-- Modelled from the spec: the saved-object record type used for the action
point read; its value is not observable by any claim. -/
def AGENT_ACTION_SAVED_OBJECT_TYPE : String := "agent_actions"

/-- One bulk.BulkOp: the target document id, the partial update fields under
the doc key (as marshalled by the Go code), and the target index. -/
structure BulkOp where
  Id : String
  Body : List (String × FieldVal)
  Index : String
deriving DecidableEq, Repr

/-- Trace entries for the effects the core issues against the cache and the
persistent store. mupdate records one bulker.MUpdate call with its update
list and whether refresh (immediate visibility) was requested. -/
inductive StoreOp where
  | cacheGet : String → StoreOp
  | storeRead : String → String → StoreOp
  | mupdate : List BulkOp → Bool → StoreOp
deriving DecidableEq, Repr

/-- Go func _handlePolicyChange: scan the batch for the winning eligible
candidate; if one is found, issue exactly one MUpdate call carrying one
BulkOp against the agents document with refresh, propagating the store
response; otherwise return success without touching the store. nowRFC3339 is
the RFC3339-UTC-formatted current time, mupdateResult the store response to
the write. Returns the Go error result next to the effect trace. -/
def _handlePolicyChange (nowRFC3339 : String) (mupdateResult : Except FleetError Unit)
    (agent : Agent) (actionIds : List String) : Except FleetError Unit × List StoreOp :=
  match policyWinner agent actionIds with
  | (found, currRev, currCoord) =>
    if found then
      let op : BulkOp :=
        ⟨agent.Id,
         [(FieldPolicyRevisionIdx, FieldVal.intVal currRev),
          (FieldPolicyCoordinatorIdx, FieldVal.intVal currCoord),
          (FieldUpdatedAt, FieldVal.strVal nowRFC3339)],
         FleetAgents⟩
      match mupdateResult with
      | Except.ok _ => (Except.ok (), [StoreOp.mupdate [op] true])
      | Except.error e => (Except.error e, [StoreOp.mupdate [op] true])
    else (Except.ok (), [])

/-- Action resolution for one non-policy event, as inlined in the loop of
_handleAckEvents: probe the process-wide cache (gCache.GetAction) and, only
on a miss, issue one point read (sv.Read) against the store keyed by the
action id; the store response is surfaced verbatim. The trace records the
probe and, on a miss, the single read. -/
def resolveAction (cacheGet : String → Option Action)
    (svRead : String → Except FleetError Action) (actionId : String) :
    Except FleetError Action × List StoreOp :=
  match cacheGet actionId with
  | some action => (Except.ok action, [StoreOp.cacheGet actionId])
  | none =>
    match svRead actionId with
    | Except.ok action =>
      (Except.ok action, [StoreOp.cacheGet actionId,
                          StoreOp.storeRead AGENT_ACTION_SAVED_OBJECT_TYPE actionId])
    | Except.error e =>
      (Except.error e, [StoreOp.cacheGet actionId,
                        StoreOp.storeRead AGENT_ACTION_SAVED_OBJECT_TYPE actionId])

/-- The event loop of _handleAckEvents. acc accumulates the policy-candidate
action ids (policyAcks) and grouped accumulates the resolved non-policy
actions with their type keys (the map m of the Go code, kept here as the
insertion sequence; it is dead after the loop, matching the TODO in the
source). An event whose AgentId is non-empty and differs from the agents id
aborts with the mismatch error; a policy: prefixed action id is accumulated
without resolution; any other event is resolved, a resolution failure
aborting with the store error verbatim. -/
def ackLoop (cacheGet : String → Option Action) (svRead : String → Except FleetError Action)
    (agent : Agent) :
    List Event → List String → List (String × Action) →
      Except FleetError (List String × List (String × Action)) × List StoreOp
  | [], acc, grouped => (Except.ok (acc, grouped), [])
  | ev :: rest, acc, grouped =>
    if ev.AgentId ≠ "" ∧ ev.AgentId ≠ agent.Id then
      (Except.error FleetError.eventAgentIdMismatch, [])
    else if listStartsWith "policy:".data ev.ActionId.data then
      ackLoop cacheGet svRead agent rest (acc ++ [ev.ActionId]) grouped
    else
      match resolveAction cacheGet svRead ev.ActionId with
      | (Except.error e, tr) => (Except.error e, tr)
      | (Except.ok action, tr) =>
        match ackLoop cacheGet svRead agent rest acc (grouped ++ [(action.ty, action)]) with
        | (r, tr2) => (r, tr ++ tr2)

/-- Go func _handleAckEvents: run the event loop and, when the collected
policyAcks slice is non-nil (non-empty), hand it to _handlePolicyChange;
the first failure aborts the batch. The trace concatenates every cache
probe, store read and update issued. -/
def _handleAckEvents (cacheGet : String → Option Action)
    (svRead : String → Except FleetError Action) (nowRFC3339 : String)
    (mupdateResult : Except FleetError Unit) (agent : Agent) (events : List Event) :
    Except FleetError Unit × List StoreOp :=
  match ackLoop cacheGet svRead agent events [] [] with
  | (Except.error e, tr) => (Except.error e, tr)
  | (Except.ok (policyAcks, _), tr) =>
    if policyAcks ≠ [] then
      match _handlePolicyChange nowRFC3339 mupdateResult agent policyAcks with
      | (r, tr2) => (r, tr ++ tr2)
    else (Except.ok (), tr)

/-- The outward outcome of the handleAcks error branch: whether the failure
was logged, and the client error response (status code and message) if one
was written. -/
structure AckHttpOutcome where
  logged : Bool
  clientErr : Option (Nat × String)
deriving DecidableEq, Repr

/-- Go method handleAcks of Router, error branch: on a failure the handler
logs it unless it is context.Canceled, and unconditionally writes an
http.Error response with status 400 and the error message. The result of
the inner _handleAcks pipeline is the parameter. -/
def handleAcks (res : Except FleetError Unit) : AckHttpOutcome :=
  match res with
  | Except.ok _ => ⟨false, none⟩
  | Except.error err => ⟨decide ¬(err = FleetError.canceled), some (400, err.message)⟩

/-- An event passes the loop of _handleAckEvents without aborting it: its
agent id is empty or the owning agents id, and it either carries a policy:
prefixed action id (skipping resolution) or resolves via a cache hit or a
successful store read. -/
def passes (cg : String → Option Action) (sr : String → Except FleetError Action)
    (agent : Agent) (e : Event) : Prop :=
  (e.AgentId = "" ∨ e.AgentId = agent.Id) ∧
    (listStartsWith "policy:".data e.ActionId.data = true
     ∨ (cg e.ActionId).isSome = true
     ∨ ∃ a, sr e.ActionId = Except.ok a)

theorem pairLex_irrefl (p : Int × Int) : ¬ pairLex p p := by
  obtain ⟨a, b⟩ := p
  simp [pairLex]

theorem pairLex_trans {p q r : Int × Int} (h1 : pairLex p q) (h2 : pairLex q r) : pairLex p r := by
  obtain ⟨a, b⟩ := p; obtain ⟨c, d⟩ := q; obtain ⟨e, f⟩ := r
  simp only [pairLex] at *
  omega

theorem pairLe_refl (p : Int × Int) : pairLe p p := Or.inl rfl

theorem pairLe_trans {p q r : Int × Int} (h1 : pairLe p q) (h2 : pairLe q r) : pairLe p r := by
  rcases h1 with h1 | h1 <;> rcases h2 with h2 | h2
  · exact Or.inl (h1.trans h2)
  · exact Or.inr (h1 ▸ h2)
  · exact Or.inr (h2 ▸ h1)
  · exact Or.inr (pairLex_trans h1 h2)

theorem pairLex_of_pairLex_of_pairLe {p q r : Int × Int}
    (h1 : pairLex p q) (h2 : pairLe q r) : pairLex p r := by
  rcases h2 with h2 | h2
  · exact h2 ▸ h1
  · exact pairLex_trans h1 h2

theorem pairLe_of_not_pairLex {p q : Int × Int} (h : ¬ pairLex p q) : pairLe q p := by
  obtain ⟨a, b⟩ := p; obtain ⟨c, d⟩ := q
  simp only [pairLex, pairLe, Prod.mk.injEq] at *
  omega

theorem pairLe_antisymm {p q : Int × Int} (h1 : pairLe p q) (h2 : pairLe q p) : p = q := by
  obtain ⟨a, b⟩ := p; obtain ⟨c, d⟩ := q
  simp only [pairLex, pairLe, Prod.mk.injEq] at *
  omega

theorem winnerStep_none {agent : Agent} {a : String} (st : Bool × Int × Int)
    (hp : parsePolicyAction a = none) : winnerStep agent st a = st := by
  simp [winnerStep, hp]

theorem winnerStep_skip {agent : Agent} {a : String} {action : policyAction}
    (st : Bool × Int × Int) (hp : parsePolicyAction a = some action)
    (hc : ¬ (action.policyId = agent.PolicyId ∧ pairLex st.2 (action.revIdx, action.coordIdx))) :
    winnerStep agent st a = st := by
  simp [winnerStep, hp, hc]

theorem winnerStep_beat {agent : Agent} {a : String} {action : policyAction}
    (st : Bool × Int × Int) (hp : parsePolicyAction a = some action)
    (hc : action.policyId = agent.PolicyId ∧ pairLex st.2 (action.revIdx, action.coordIdx)) :
    winnerStep agent st a = (true, action.revIdx, action.coordIdx) := by
  simp [winnerStep, hp, hc]

theorem winnerFold_pairLe (agent : Agent) (l : List String) :
    ∀ st : Bool × Int × Int, pairLe st.2 (List.foldl (winnerStep agent) st l).2 := by
  induction l with
  | nil => intro st; exact pairLe_refl _
  | cons a l ih =>
    intro st
    rw [List.foldl_cons]
    rcases hp : parsePolicyAction a with _ | action
    · rw [winnerStep_none st hp]; exact ih st
    · by_cases hc : action.policyId = agent.PolicyId ∧ pairLex st.2 (action.revIdx, action.coordIdx)
      · rw [winnerStep_beat st hp hc]
        exact pairLe_trans (Or.inr hc.2) (ih (true, action.revIdx, action.coordIdx))
      · rw [winnerStep_skip st hp hc]; exact ih st

theorem winnerFold_found_persist (agent : Agent) (l : List String) :
    ∀ st : Bool × Int × Int, st.1 = true → (List.foldl (winnerStep agent) st l).1 = true := by
  induction l with
  | nil => intro st h; exact h
  | cons a l ih =>
    intro st h
    rw [List.foldl_cons]
    rcases hp : parsePolicyAction a with _ | action
    · rw [winnerStep_none st hp]; exact ih st h
    · by_cases hc : action.policyId = agent.PolicyId ∧ pairLex st.2 (action.revIdx, action.coordIdx)
      · rw [winnerStep_beat st hp hc]; exact ih _ rfl
      · rw [winnerStep_skip st hp hc]; exact ih st h

theorem winnerFold_false_char (agent : Agent) (l : List String) :
    ∀ p : Int × Int,
      ((List.foldl (winnerStep agent) (false, p) l).1 = false →
        (List.foldl (winnerStep agent) (false, p) l).2 = p)
      ∧ ((List.foldl (winnerStep agent) (false, p) l).1 = true →
        pairLex p (List.foldl (winnerStep agent) (false, p) l).2) := by
  induction l with
  | nil => intro p; exact ⟨fun _ => rfl, fun h => by simp at h⟩
  | cons a l ih =>
    intro p
    rw [List.foldl_cons]
    rcases hp : parsePolicyAction a with _ | action
    · rw [winnerStep_none _ hp]; exact ih p
    · by_cases hc : action.policyId = agent.PolicyId ∧ pairLex (p.1, p.2) (action.revIdx, action.coordIdx)
      · rw [@winnerStep_beat agent a action (false, p) hp (by simpa using hc)]
        constructor
        · intro h
          have := winnerFold_found_persist agent l (true, action.revIdx, action.coordIdx) rfl
          rw [h] at this; exact absurd this (by simp)
        · intro _
          have hle := winnerFold_pairLe agent l (true, action.revIdx, action.coordIdx)
          exact pairLex_of_pairLex_of_pairLe (by simpa using hc.2) hle
      · rw [@winnerStep_skip agent a action (false, p) hp (by simpa using hc)]
        exact ih p

theorem winnerFold_mem (agent : Agent) (l : List String) :
    ∀ st : Bool × Int × Int,
      (List.foldl (winnerStep agent) st l).2 = st.2
      ∨ (List.foldl (winnerStep agent) st l).2 ∈ matchingPairs agent l := by
  induction l with
  | nil => intro st; exact Or.inl rfl
  | cons a l ih =>
    intro st
    rw [List.foldl_cons]
    rcases hp : parsePolicyAction a with _ | action
    · rw [winnerStep_none st hp]
      rcases ih st with h | h
      · exact Or.inl h
      · exact Or.inr (by simp [matchingPairs, List.filterMap_cons, hp]; simpa [matchingPairs] using h)
    · by_cases hpol : action.policyId = agent.PolicyId
      · have hmp : matchingPairs agent (a :: l)
            = (action.revIdx, action.coordIdx) :: matchingPairs agent l := by
          simp [matchingPairs, List.filterMap_cons, hp, hpol]
        by_cases hlex : pairLex st.2 (action.revIdx, action.coordIdx)
        · rw [winnerStep_beat st hp ⟨hpol, hlex⟩]
          rcases ih (true, action.revIdx, action.coordIdx) with h | h
          · exact Or.inr (by rw [hmp, h]; exact List.mem_cons_self _ _)
          · exact Or.inr (by rw [hmp]; exact List.mem_cons_of_mem _ h)
        · rw [winnerStep_skip st hp (by tauto)]
          rcases ih st with h | h
          · exact Or.inl h
          · exact Or.inr (by rw [hmp]; exact List.mem_cons_of_mem _ h)
      · have hmp : matchingPairs agent (a :: l) = matchingPairs agent l := by
          simp [matchingPairs, List.filterMap_cons, hp, hpol]
        rw [winnerStep_skip st hp (by tauto)]
        rcases ih st with h | h
        · exact Or.inl h
        · exact Or.inr (by rw [hmp]; exact h)

theorem winnerFold_ub (agent : Agent) (l : List String) :
    ∀ st : Bool × Int × Int, ∀ q ∈ matchingPairs agent l,
      pairLe q (List.foldl (winnerStep agent) st l).2 := by
  induction l with
  | nil => intro st q hq; simp [matchingPairs] at hq
  | cons a l ih =>
    intro st q hq
    rw [List.foldl_cons]
    rcases hp : parsePolicyAction a with _ | action
    · have hmp : matchingPairs agent (a :: l) = matchingPairs agent l := by
        simp [matchingPairs, List.filterMap_cons, hp]
      rw [winnerStep_none st hp]
      exact ih st q (hmp ▸ hq)
    · by_cases hpol : action.policyId = agent.PolicyId
      · have hmp : matchingPairs agent (a :: l)
            = (action.revIdx, action.coordIdx) :: matchingPairs agent l := by
          simp [matchingPairs, List.filterMap_cons, hp, hpol]
        rw [hmp] at hq
        by_cases hlex : pairLex st.2 (action.revIdx, action.coordIdx)
        · rw [winnerStep_beat st hp ⟨hpol, hlex⟩]
          rcases List.mem_cons.mp hq with h | h
          · subst h
            exact winnerFold_pairLe agent l (true, action.revIdx, action.coordIdx)
          · exact ih (true, action.revIdx, action.coordIdx) q h
        · rw [winnerStep_skip st hp (by tauto)]
          rcases List.mem_cons.mp hq with h | h
          · subst h
            exact pairLe_trans (pairLe_of_not_pairLex hlex) (winnerFold_pairLe agent l st)
          · exact ih st q h
      · have hmp : matchingPairs agent (a :: l) = matchingPairs agent l := by
          simp [matchingPairs, List.filterMap_cons, hp, hpol]
        rw [winnerStep_skip st hp (by tauto)]
        exact ih st q (hmp ▸ hq)

theorem policyWinner_ge (agent : Agent) (ids : List String) :
    pairLe (agentPair agent) (policyWinner agent ids).2 :=
  winnerFold_pairLe agent ids (false, agentPair agent)

theorem policyWinner_false (agent : Agent) (ids : List String)
    (h : (policyWinner agent ids).1 = false) : (policyWinner agent ids).2 = agentPair agent :=
  (winnerFold_false_char agent ids (agentPair agent)).1 h

theorem policyWinner_found_iff (agent : Agent) (ids : List String) :
    (policyWinner agent ids).1 = true ↔ pairLex (agentPair agent) (policyWinner agent ids).2 := by
  constructor
  · exact (winnerFold_false_char agent ids (agentPair agent)).2
  · intro hlex
    by_cases hf : (policyWinner agent ids).1 = true
    · exact hf
    · have := policyWinner_false agent ids (Bool.not_eq_true _ ▸ hf)
      rw [this] at hlex
      exact absurd hlex (pairLex_irrefl _)

theorem policyWinner_mem (agent : Agent) (ids : List String) :
    (policyWinner agent ids).2 = agentPair agent
    ∨ (policyWinner agent ids).2 ∈ matchingPairs agent ids :=
  winnerFold_mem agent ids (false, agentPair agent)

theorem policyWinner_ub (agent : Agent) (ids : List String) :
    ∀ q ∈ matchingPairs agent ids, pairLe q (policyWinner agent ids).2 :=
  winnerFold_ub agent ids (false, agentPair agent)

theorem policyWinner_of_eligible_empty (agent : Agent) (ids : List String)
    (h : eligiblePairs agent ids = []) : policyWinner agent ids = (false, agentPair agent) := by
  by_cases hf : (policyWinner agent ids).1 = true
  · exfalso
    have hlex := (policyWinner_found_iff agent ids).mp hf
    have hmem : (policyWinner agent ids).2 ∈ matchingPairs agent ids := by
      rcases policyWinner_mem agent ids with he | hm
      · rw [he] at hlex; exact absurd hlex (pairLex_irrefl _)
      · exact hm
    have : (policyWinner agent ids).2 ∈ eligiblePairs agent ids :=
      List.mem_filter.mpr ⟨hmem, decide_eq_true hlex⟩
    rw [h] at this
    exact absurd this (List.not_mem_nil _)
  · have hf' : (policyWinner agent ids).1 = false := Bool.not_eq_true _ ▸ hf
    have hp := policyWinner_false agent ids hf'
    rw [Prod.ext_iff]
    exact ⟨hf', hp⟩

theorem policyWinner_of_eligible (agent : Agent) (ids : List String) (q : Int × Int)
    (hq : q ∈ eligiblePairs agent ids) :
    (policyWinner agent ids).1 = true
    ∧ (policyWinner agent ids).2 ∈ eligiblePairs agent ids
    ∧ ∀ r ∈ eligiblePairs agent ids, pairLe r (policyWinner agent ids).2 := by
  obtain ⟨hqm, hqd⟩ := List.mem_filter.mp hq
  have hqlex : pairLex (agentPair agent) q := of_decide_eq_true hqd
  have hle : pairLe q (policyWinner agent ids).2 := policyWinner_ub agent ids q hqm
  have hlex : pairLex (agentPair agent) (policyWinner agent ids).2 :=
    pairLex_of_pairLex_of_pairLe hqlex hle
  have hfound := (policyWinner_found_iff agent ids).mpr hlex
  have hmem : (policyWinner agent ids).2 ∈ matchingPairs agent ids := by
    rcases policyWinner_mem agent ids with he | hm
    · rw [he] at hlex; exact absurd hlex (pairLex_irrefl _)
    · exact hm
  refine ⟨hfound, List.mem_filter.mpr ⟨hmem, decide_eq_true hlex⟩, ?_⟩
  intro r hr
  exact policyWinner_ub agent ids r (List.mem_filter.mp hr).1

theorem policyWinner_perm (agent : Agent) {ids ids' : List String}
    (h : ids.Perm ids') : policyWinner agent ids = policyWinner agent ids' := by
  have hmp : (matchingPairs agent ids).Perm (matchingPairs agent ids') := h.filterMap _
  have hW : (policyWinner agent ids).2 = (policyWinner agent ids').2 := by
    apply pairLe_antisymm
    · rcases policyWinner_mem agent ids with he | hm
      · rw [he]; exact policyWinner_ge agent ids'
      · exact policyWinner_ub agent ids' _ (hmp.mem_iff.mp hm)
    · rcases policyWinner_mem agent ids' with he | hm
      · rw [he]; exact policyWinner_ge agent ids
      · exact policyWinner_ub agent ids _ (hmp.mem_iff.mpr hm)
  have hF : (policyWinner agent ids).1 = (policyWinner agent ids').1 := by
    have hiff : (policyWinner agent ids).1 = true ↔ (policyWinner agent ids').1 = true := by
      rw [policyWinner_found_iff, policyWinner_found_iff, hW]
    rcases hb : (policyWinner agent ids).1 with _ | _
    · rcases hb' : (policyWinner agent ids').1 with _ | _
      · rfl
      · exact absurd (hiff.mpr hb') (by rw [hb]; simp)
    · exact (hiff.mp hb).symm
  rw [Prod.ext_iff]
  exact ⟨hF, hW⟩

/-- C1: _handlePolicyChange issues a store write only carrying a
(revision, coordinator) pair lexicographically strictly above the agents
current pair, so the applied pair never moves backward and an exact tie never
triggers a write; and when no candidate beats the incumbent (no eligible
pair exists) the call performs no store operation at all and returns
success. -/
theorem handlePolicyChange_never_backward (now : String) (mres : Except FleetError Unit)
    (agent : Agent) (ids : List String) :
    (∀ updates refresh, StoreOp.mupdate updates refresh ∈ (_handlePolicyChange now mres agent ids).2 →
      ∀ b ∈ updates, ∃ r c,
        b.Body = [(FieldPolicyRevisionIdx, FieldVal.intVal r),
                  (FieldPolicyCoordinatorIdx, FieldVal.intVal c),
                  (FieldUpdatedAt, FieldVal.strVal now)]
        ∧ pairLex (agentPair agent) (r, c))
    ∧ (eligiblePairs agent ids = [] →
        _handlePolicyChange now mres agent ids = (Except.ok (), [])) := by
  constructor
  · intro updates refresh hmem b hb
    rcases hw : policyWinner agent ids with ⟨found, currRev, currCoord⟩
    rcases found with _ | _
    · simp [_handlePolicyChange, hw] at hmem
    · have hfound : (policyWinner agent ids).1 = true := by rw [hw]
      have hlex := (policyWinner_found_iff agent ids).mp hfound
      rw [hw] at hlex
      refine ⟨currRev, currCoord, ?_, hlex⟩
      rcases mres with u | e <;>
        · simp only [_handlePolicyChange, hw, if_true, List.mem_singleton,
            StoreOp.mupdate.injEq] at hmem
          rw [hmem.1, List.mem_singleton] at hb
          rw [hb]
  · intro h
    have hw := policyWinner_of_eligible_empty agent ids h
    simp [_handlePolicyChange, hw]

/-- C1 witness: an agent at pair (3, 1) acknowledging an exact-tie candidate
for its own policy has no eligible candidate, and the call is a successful
no-op issuing no store operation. -/
theorem handlePolicyChange_never_backward_witness :
    eligiblePairs ⟨"A1", "6ba7b810-9dad-11d1-80b4-00c04fd430c8", 3, 1⟩
        ["policy:6ba7b810-9dad-11d1-80b4-00c04fd430c8:3:1"] = []
    ∧ _handlePolicyChange "2020-01-01T00:00:00Z" (Except.ok ())
        ⟨"A1", "6ba7b810-9dad-11d1-80b4-00c04fd430c8", 3, 1⟩
        ["policy:6ba7b810-9dad-11d1-80b4-00c04fd430c8:3:1"] = (Except.ok (), []) :=
  ⟨by decide,
   (handlePolicyChange_never_backward "2020-01-01T00:00:00Z" (Except.ok ())
      ⟨"A1", "6ba7b810-9dad-11d1-80b4-00c04fd430c8", 3, 1⟩
      ["policy:6ba7b810-9dad-11d1-80b4-00c04fd430c8:3:1"]).2 (by decide)⟩

/-- C2: when some eligible candidate exists, the pair _handlePolicyChange
writes is the lexicographic maximum over all eligible candidates of the
batch, and the outcome is invariant under permuting the batch. -/
theorem handlePolicyChange_max_eligible (now : String) (mres : Except FleetError Unit)
    (agent : Agent) (ids : List String) (q : Int × Int) (hq : q ∈ eligiblePairs agent ids) :
    (∃ p, p ∈ eligiblePairs agent ids ∧ (∀ r ∈ eligiblePairs agent ids, pairLe r p)
      ∧ (_handlePolicyChange now mres agent ids).2 =
          [StoreOp.mupdate
            [⟨agent.Id,
              [(FieldPolicyRevisionIdx, FieldVal.intVal p.1),
               (FieldPolicyCoordinatorIdx, FieldVal.intVal p.2),
               (FieldUpdatedAt, FieldVal.strVal now)],
              FleetAgents⟩] true])
    ∧ ∀ ids', ids.Perm ids' →
        _handlePolicyChange now mres agent ids = _handlePolicyChange now mres agent ids' := by
  constructor
  · obtain ⟨hfound, hmem, hub⟩ := policyWinner_of_eligible agent ids q hq
    refine ⟨(policyWinner agent ids).2, hmem, hub, ?_⟩
    rcases hw : policyWinner agent ids with ⟨found, currRev, currCoord⟩
    rw [hw] at hfound
    subst hfound
    rcases mres with u | e <;> simp [_handlePolicyChange, hw]
  · intro ids' hperm
    unfold _handlePolicyChange
    rw [policyWinner_perm agent hperm]

/-- C2 witness: the batch [(3,0), (3,5), (2,9)] against an agent at (3,1)
with matching policy id writes the maximal eligible pair (which is (3,5)),
independent of batch order. -/
theorem handlePolicyChange_max_eligible_witness :
    (∃ p, p ∈ eligiblePairs ⟨"A1", "6ba7b810-9dad-11d1-80b4-00c04fd430c8", 3, 1⟩
          ["policy:6ba7b810-9dad-11d1-80b4-00c04fd430c8:3:0",
           "policy:6ba7b810-9dad-11d1-80b4-00c04fd430c8:3:5",
           "policy:6ba7b810-9dad-11d1-80b4-00c04fd430c8:2:9"]
      ∧ (∀ r ∈ eligiblePairs ⟨"A1", "6ba7b810-9dad-11d1-80b4-00c04fd430c8", 3, 1⟩
          ["policy:6ba7b810-9dad-11d1-80b4-00c04fd430c8:3:0",
           "policy:6ba7b810-9dad-11d1-80b4-00c04fd430c8:3:5",
           "policy:6ba7b810-9dad-11d1-80b4-00c04fd430c8:2:9"], pairLe r p)
      ∧ (_handlePolicyChange "2020-01-01T00:00:00Z" (Except.ok ())
          ⟨"A1", "6ba7b810-9dad-11d1-80b4-00c04fd430c8", 3, 1⟩
          ["policy:6ba7b810-9dad-11d1-80b4-00c04fd430c8:3:0",
           "policy:6ba7b810-9dad-11d1-80b4-00c04fd430c8:3:5",
           "policy:6ba7b810-9dad-11d1-80b4-00c04fd430c8:2:9"]).2 =
          [StoreOp.mupdate
            [⟨"A1",
              [(FieldPolicyRevisionIdx, FieldVal.intVal p.1),
               (FieldPolicyCoordinatorIdx, FieldVal.intVal p.2),
               (FieldUpdatedAt, FieldVal.strVal "2020-01-01T00:00:00Z")],
              FleetAgents⟩] true])
    ∧ ∀ ids', (["policy:6ba7b810-9dad-11d1-80b4-00c04fd430c8:3:0",
           "policy:6ba7b810-9dad-11d1-80b4-00c04fd430c8:3:5",
           "policy:6ba7b810-9dad-11d1-80b4-00c04fd430c8:2:9"] : List String).Perm ids' →
        _handlePolicyChange "2020-01-01T00:00:00Z" (Except.ok ())
          ⟨"A1", "6ba7b810-9dad-11d1-80b4-00c04fd430c8", 3, 1⟩
          ["policy:6ba7b810-9dad-11d1-80b4-00c04fd430c8:3:0",
           "policy:6ba7b810-9dad-11d1-80b4-00c04fd430c8:3:5",
           "policy:6ba7b810-9dad-11d1-80b4-00c04fd430c8:2:9"] =
        _handlePolicyChange "2020-01-01T00:00:00Z" (Except.ok ())
          ⟨"A1", "6ba7b810-9dad-11d1-80b4-00c04fd430c8", 3, 1⟩ ids' :=
  handlePolicyChange_max_eligible "2020-01-01T00:00:00Z" (Except.ok ())
    ⟨"A1", "6ba7b810-9dad-11d1-80b4-00c04fd430c8", 3, 1⟩
    ["policy:6ba7b810-9dad-11d1-80b4-00c04fd430c8:3:0",
     "policy:6ba7b810-9dad-11d1-80b4-00c04fd430c8:3:5",
     "policy:6ba7b810-9dad-11d1-80b4-00c04fd430c8:2:9"] (3, 5) (by decide)

/-- C5: a parsed candidate whose policy id differs from the agents current
policy id never affects the outcome of _handlePolicyChange: removing it
from the batch (at any position) leaves the result and the issued store
operations unchanged, so it never becomes the winner and never contributes
to a write. -/
theorem handlePolicyChange_other_policy_ignored (now : String) (mres : Except FleetError Unit)
    (agent : Agent) (l1 l2 : List String) (c : String) (pa : policyAction)
    (hp : parsePolicyAction c = some pa) (hne : pa.policyId ≠ agent.PolicyId) :
    _handlePolicyChange now mres agent (l1 ++ c :: l2)
      = _handlePolicyChange now mres agent (l1 ++ l2) := by
  have hwin : policyWinner agent (l1 ++ c :: l2) = policyWinner agent (l1 ++ l2) := by
    unfold policyWinner
    rw [List.foldl_append, List.foldl_append, List.foldl_cons,
        winnerStep_skip _ hp (fun h => hne h.1)]
  unfold _handlePolicyChange
  rw [hwin]

/-- C5 witness: a candidate for a different policy with numerically greater
pair (9, 9) is ignored; the batch behaves exactly as without it. -/
theorem handlePolicyChange_other_policy_ignored_witness :
    _handlePolicyChange "2020-01-01T00:00:00Z" (Except.ok ())
        ⟨"A1", "6ba7b810-9dad-11d1-80b4-00c04fd430c8", 1, 0⟩
        ([] ++ "policy:11111111-2222-4333-8444-555555555555:9:9"
          :: ["policy:6ba7b810-9dad-11d1-80b4-00c04fd430c8:2:0"]) =
      _handlePolicyChange "2020-01-01T00:00:00Z" (Except.ok ())
        ⟨"A1", "6ba7b810-9dad-11d1-80b4-00c04fd430c8", 1, 0⟩
        ([] ++ ["policy:6ba7b810-9dad-11d1-80b4-00c04fd430c8:2:0"]) :=
  handlePolicyChange_other_policy_ignored "2020-01-01T00:00:00Z" (Except.ok ())
    ⟨"A1", "6ba7b810-9dad-11d1-80b4-00c04fd430c8", 1, 0⟩
    [] ["policy:6ba7b810-9dad-11d1-80b4-00c04fd430c8:2:0"]
    "policy:11111111-2222-4333-8444-555555555555:9:9"
    ⟨"11111111-2222-4333-8444-555555555555", 9, 9⟩ (by decide) (by decide)

/-- C8: whenever the reconciler finds a winner it issues exactly one MUpdate
call carrying exactly one update operation, targeting the agents own
document id in the agents index, whose body sets exactly the revision-index
field, the coordinator-index field and the update-timestamp field (the
RFC3339-UTC-formatted time), with refresh requested; no other field is
written. -/
theorem handlePolicyChange_single_conditional_write (now : String)
    (mres : Except FleetError Unit) (agent : Agent) (ids : List String)
    (q : Int × Int) (hq : q ∈ eligiblePairs agent ids) :
    ∃ r c, (_handlePolicyChange now mres agent ids).2 =
      [StoreOp.mupdate
        [⟨agent.Id,
          [(FieldPolicyRevisionIdx, FieldVal.intVal r),
           (FieldPolicyCoordinatorIdx, FieldVal.intVal c),
           (FieldUpdatedAt, FieldVal.strVal now)],
          FleetAgents⟩] true] := by
  obtain ⟨hfound, _, _⟩ := policyWinner_of_eligible agent ids q hq
  rcases hw : policyWinner agent ids with ⟨found, currRev, currCoord⟩
  rw [hw] at hfound
  subst hfound
  refine ⟨currRev, currCoord, ?_⟩
  rcases mres with u | e <;> simp [_handlePolicyChange, hw]

/-- C8 witness: agent A1 bound to policy P at (1, 0) acknowledging the batch
with candidates P:2:0 and OTHER:9:9 issues exactly one refreshed update of
its own document with the three fields. -/
theorem handlePolicyChange_single_conditional_write_witness :
    ∃ r c, (_handlePolicyChange "2020-01-01T00:00:00Z" (Except.ok ())
      ⟨"A1", "6ba7b810-9dad-11d1-80b4-00c04fd430c8", 1, 0⟩
      ["policy:6ba7b810-9dad-11d1-80b4-00c04fd430c8:2:0",
       "policy:11111111-2222-4333-8444-555555555555:9:9"]).2 =
      [StoreOp.mupdate
        [⟨"A1",
          [(FieldPolicyRevisionIdx, FieldVal.intVal r),
           (FieldPolicyCoordinatorIdx, FieldVal.intVal c),
           (FieldUpdatedAt, FieldVal.strVal "2020-01-01T00:00:00Z")],
          FleetAgents⟩] true] :=
  handlePolicyChange_single_conditional_write "2020-01-01T00:00:00Z" (Except.ok ())
    ⟨"A1", "6ba7b810-9dad-11d1-80b4-00c04fd430c8", 1, 0⟩
    ["policy:6ba7b810-9dad-11d1-80b4-00c04fd430c8:2:0",
     "policy:11111111-2222-4333-8444-555555555555:9:9"] (2, 0) (by decide)

/-- C3 counterexample: parsePolicyAction accepts an identifier whose UUID
segment is a syntactically valid UUID of version 1, not version 4, so
parsing does not succeed exactly on version-4 UUID segments. -/
theorem parsePolicyAction_accepts_non_v4 :
    (parsePolicyAction "policy:6ba7b810-9dad-11d1-80b4-00c04fd430c8:3:4").isSome = true
    ∧ uuidFromStringOk "6ba7b810-9dad-11d1-80b4-00c04fd430c8" = true
    ∧ uuidVersionChar "6ba7b810-9dad-11d1-80b4-00c04fd430c8" = some '1' := by decide

/-- C3 amended: parsePolicyAction succeeds exactly when the identifier has
four colon-separated segments with the literal tag policy, a segment 1 that
is a syntactically valid UUID of any version (in any textual form the UUID
parser accepts), and segments 2 and 3 that parse as decimal 64-bit signed
integers; on success it returns segment 1 verbatim with the two indices,
and on every other input it returns none. It is a total function. -/
theorem parsePolicyAction_grammar_eq (id : String) :
    parsePolicyAction id = policyActionGrammar id := by
  unfold parsePolicyAction policyActionGrammar
  rcases splitChar ':' id.data with _ | ⟨s0, l0⟩
  · simp
  rcases l0 with _ | ⟨s1, l1⟩
  · simp
  rcases l1 with _ | ⟨s2, l2⟩
  · simp
  rcases l2 with _ | ⟨s3, l3⟩
  · simp
  rcases l3 with _ | ⟨s4, l4⟩
  · by_cases h2 : String.mk s0 = "policy"
    · by_cases h3 : uuidFromStringOk (String.mk s1) = true
      · rcases hA : strconvAtoi (String.mk s2) with _ | rev <;>
          rcases hB : strconvAtoi (String.mk s3) with _ | coord <;>
            simp [h2, h3, hA, hB]
      · rw [Bool.not_eq_true] at h3
        simp [h2, h3]
    · simp [h2]
  · have hbig : (s0 :: s1 :: s2 :: s3 :: s4 :: l4).length ≠ 4 := by
      simp only [List.length_cons]; omega
    rw [if_pos hbig, if_neg (fun hc => hbig hc.1)]

/-- C9 counterexample: when the pipeline ends with context.Canceled, the
handler does not log it, but it still writes an http.Error response with
status 400 to the client, so the cancellation is reported as a request
failure, contrary to the claim. -/
theorem handleAcks_canceled_reported :
    handleAcks (Except.error FleetError.canceled)
      = ⟨false, some (400, "context canceled")⟩
    ∧ (handleAcks (Except.error FleetError.canceled)).clientErr ≠ none := by decide

/-- C9 amended: on a context.Canceled outcome the handler does not log the
failure, but like every other failure it is still reported to the client as
an http.Error with status 400 and the error message; any other error is
both logged and reported. -/
theorem handleAcks_canceled_not_logged (e : FleetError) :
    ((handleAcks (Except.error e)).logged = true ↔ e ≠ FleetError.canceled)
    ∧ (handleAcks (Except.error e)).clientErr = some (400, e.message) := by
  constructor
  · simp [handleAcks]
  · rfl

theorem resolveAction_hit (cg : String → Option Action) (sr : String → Except FleetError Action)
    (id : String) (a : Action) (h : cg id = some a) :
    resolveAction cg sr id = (Except.ok a, [StoreOp.cacheGet id]) := by
  simp [resolveAction, h]

theorem resolveAction_miss (cg : String → Option Action) (sr : String → Except FleetError Action)
    (id : String) (h : cg id = none) :
    resolveAction cg sr id
      = (sr id, [StoreOp.cacheGet id, StoreOp.storeRead AGENT_ACTION_SAVED_OBJECT_TYPE id]) := by
  rcases hs : sr id with e | a <;> simp [resolveAction, h, hs]

theorem resolveAction_ops (cg : String → Option Action) (sr : String → Except FleetError Action)
    (id : String) :
    ∀ op ∈ (resolveAction cg sr id).2,
      op = StoreOp.cacheGet id ∨ op = StoreOp.storeRead AGENT_ACTION_SAVED_OBJECT_TYPE id := by
  intro op hop
  rcases h : cg id with _ | a
  · rcases hs : sr id with e | a <;> · simp [resolveAction, h, hs] at hop; tauto
  · simp [resolveAction, h] at hop; tauto

theorem ackLoop_cons_mismatch (cg : String → Option Action)
    (sr : String → Except FleetError Action) (agent : Agent) (ev : Event) (rest : List Event)
    (acc : List String) (grouped : List (String × Action))
    (h : ev.AgentId ≠ "" ∧ ev.AgentId ≠ agent.Id) :
    ackLoop cg sr agent (ev :: rest) acc grouped
      = (Except.error FleetError.eventAgentIdMismatch, []) := by
  simp [ackLoop, h]

theorem ackLoop_cons_policy (cg : String → Option Action)
    (sr : String → Except FleetError Action) (agent : Agent) (ev : Event) (rest : List Event)
    (acc : List String) (grouped : List (String × Action))
    (hok : ¬(ev.AgentId ≠ "" ∧ ev.AgentId ≠ agent.Id))
    (hpre : listStartsWith "policy:".data ev.ActionId.data = true) :
    ackLoop cg sr agent (ev :: rest) acc grouped
      = ackLoop cg sr agent rest (acc ++ [ev.ActionId]) grouped := by
  simp [ackLoop, hok, hpre]

theorem ackLoop_cons_resolve_err (cg : String → Option Action)
    (sr : String → Except FleetError Action) (agent : Agent) (ev : Event) (rest : List Event)
    (acc : List String) (grouped : List (String × Action)) (e : FleetError) (tr : List StoreOp)
    (hok : ¬(ev.AgentId ≠ "" ∧ ev.AgentId ≠ agent.Id))
    (hpre : listStartsWith "policy:".data ev.ActionId.data = false)
    (hres : resolveAction cg sr ev.ActionId = (Except.error e, tr)) :
    ackLoop cg sr agent (ev :: rest) acc grouped = (Except.error e, tr) := by
  simp [ackLoop, hok, hpre, hres]

theorem ackLoop_cons_resolve_ok (cg : String → Option Action)
    (sr : String → Except FleetError Action) (agent : Agent) (ev : Event) (rest : List Event)
    (acc : List String) (grouped : List (String × Action)) (a : Action) (tr : List StoreOp)
    (hok : ¬(ev.AgentId ≠ "" ∧ ev.AgentId ≠ agent.Id))
    (hpre : listStartsWith "policy:".data ev.ActionId.data = false)
    (hres : resolveAction cg sr ev.ActionId = (Except.ok a, tr)) :
    ackLoop cg sr agent (ev :: rest) acc grouped
      = ((ackLoop cg sr agent rest acc (grouped ++ [(a.ty, a)])).1,
         tr ++ (ackLoop cg sr agent rest acc (grouped ++ [(a.ty, a)])).2) := by
  rcases hx : ackLoop cg sr agent rest acc (grouped ++ [(a.ty, a)]) with ⟨r, tr2⟩
  simp [ackLoop, hok, hpre, hres, hx]

theorem ackLoop_ops (cg : String → Option Action) (sr : String → Except FleetError Action)
    (agent : Agent) :
    ∀ (events : List Event) (acc : List String) (grouped : List (String × Action)),
      ∀ op ∈ (ackLoop cg sr agent events acc grouped).2,
        ∃ ev, ev ∈ events ∧ listStartsWith "policy:".data ev.ActionId.data = false
          ∧ (op = StoreOp.cacheGet ev.ActionId
             ∨ op = StoreOp.storeRead AGENT_ACTION_SAVED_OBJECT_TYPE ev.ActionId) := by
  intro events
  induction events with
  | nil => intro acc grouped op hop; simp [ackLoop] at hop
  | cons ev rest ih =>
    intro acc grouped op hop
    by_cases hmm : ev.AgentId ≠ "" ∧ ev.AgentId ≠ agent.Id
    · rw [ackLoop_cons_mismatch cg sr agent ev rest acc grouped hmm] at hop
      simp at hop
    · by_cases hpre : listStartsWith "policy:".data ev.ActionId.data = true
      · rw [ackLoop_cons_policy cg sr agent ev rest acc grouped hmm hpre] at hop
        obtain ⟨ev', hmem, hfalse, hor⟩ := ih (acc ++ [ev.ActionId]) grouped op hop
        exact ⟨ev', List.mem_cons_of_mem _ hmem, hfalse, hor⟩
      · rw [Bool.not_eq_true] at hpre
        rcases hres : resolveAction cg sr ev.ActionId with ⟨r, tr⟩
        rcases r with e | a
        · rw [ackLoop_cons_resolve_err cg sr agent ev rest acc grouped e tr hmm hpre hres] at hop
          have := resolveAction_ops cg sr ev.ActionId op (by rw [hres]; exact hop)
          exact ⟨ev, List.mem_cons_self _ _, hpre, this⟩
        · rw [ackLoop_cons_resolve_ok cg sr agent ev rest acc grouped a tr hmm hpre hres] at hop
          rcases List.mem_append.mp hop with h | h
          · have := resolveAction_ops cg sr ev.ActionId op (by rw [hres]; exact h)
            exact ⟨ev, List.mem_cons_self _ _, hpre, this⟩
          · obtain ⟨ev', hmem, hfalse, hor⟩ := ih acc (grouped ++ [(a.ty, a)]) op h
            exact ⟨ev', List.mem_cons_of_mem _ hmem, hfalse, hor⟩

theorem ackLoop_error_of_mismatch (cg : String → Option Action)
    (sr : String → Except FleetError Action) (agent : Agent) :
    ∀ (events : List Event) (acc : List String) (grouped : List (String × Action)),
      (∃ ev ∈ events, ev.AgentId ≠ "" ∧ ev.AgentId ≠ agent.Id) →
      ∃ e, (ackLoop cg sr agent events acc grouped).1 = Except.error e := by
  intro events
  induction events with
  | nil => intro acc grouped h; simp at h
  | cons ev rest ih =>
    intro acc grouped h
    by_cases hmm : ev.AgentId ≠ "" ∧ ev.AgentId ≠ agent.Id
    · exact ⟨FleetError.eventAgentIdMismatch,
        by rw [ackLoop_cons_mismatch cg sr agent ev rest acc grouped hmm]⟩
    · have hrest : ∃ ev' ∈ rest, ev'.AgentId ≠ "" ∧ ev'.AgentId ≠ agent.Id := by
        rcases h with ⟨ev', hm, hx⟩
        rcases List.mem_cons.mp hm with heq | hm'
        · exact absurd (heq ▸ hx) hmm
        · exact ⟨ev', hm', hx⟩
      by_cases hpre : listStartsWith "policy:".data ev.ActionId.data = true
      · rw [ackLoop_cons_policy cg sr agent ev rest acc grouped hmm hpre]
        exact ih (acc ++ [ev.ActionId]) grouped hrest
      · rw [Bool.not_eq_true] at hpre
        rcases hres : resolveAction cg sr ev.ActionId with ⟨r, tr⟩
        rcases r with e | a
        · rw [ackLoop_cons_resolve_err cg sr agent ev rest acc grouped e tr hmm hpre hres]
          exact ⟨e, rfl⟩
        · rw [ackLoop_cons_resolve_ok cg sr agent ev rest acc grouped a tr hmm hpre hres]
          exact ih acc (grouped ++ [(a.ty, a)]) hrest

theorem ackLoop_all_policy (cg : String → Option Action)
    (sr : String → Except FleetError Action) (agent : Agent) :
    ∀ (events : List Event) (acc : List String) (grouped : List (String × Action)),
      (∀ ev ∈ events, (ev.AgentId = "" ∨ ev.AgentId = agent.Id)
        ∧ listStartsWith "policy:".data ev.ActionId.data = true) →
      ackLoop cg sr agent events acc grouped
        = (Except.ok (acc ++ events.map (fun ev => ev.ActionId), grouped), []) := by
  intro events
  induction events with
  | nil => intro acc grouped h; simp [ackLoop]
  | cons ev rest ih =>
    intro acc grouped h
    obtain ⟨hagent, hpre⟩ := h ev (List.mem_cons_self _ _)
    have hok : ¬(ev.AgentId ≠ "" ∧ ev.AgentId ≠ agent.Id) := by tauto
    rw [ackLoop_cons_policy cg sr agent ev rest acc grouped hok hpre,
        ih (acc ++ [ev.ActionId]) grouped (fun e he => h e (List.mem_cons_of_mem _ he))]
    simp

theorem ackLoop_append_pass (cg : String → Option Action)
    (sr : String → Except FleetError Action) (agent : Agent) :
    ∀ (l1 : List Event) (rest : List Event) (acc : List String)
      (grouped : List (String × Action)), (∀ e ∈ l1, passes cg sr agent e) →
      ∃ acc2 grouped2 tr1,
        ackLoop cg sr agent (l1 ++ rest) acc grouped
          = ((ackLoop cg sr agent rest acc2 grouped2).1,
             tr1 ++ (ackLoop cg sr agent rest acc2 grouped2).2) := by
  intro l1
  induction l1 with
  | nil =>
    intro rest acc grouped _
    refine ⟨acc, grouped, [], ?_⟩
    rcases hx : ackLoop cg sr agent rest acc grouped with ⟨r, t⟩
    simp [hx]
  | cons e l1 ih =>
    intro rest acc grouped hpass
    obtain ⟨hagent, hres⟩ := hpass e (List.mem_cons_self _ _)
    have hpass' : ∀ x ∈ l1, passes cg sr agent x :=
      fun x hx => hpass x (List.mem_cons_of_mem _ hx)
    have hok : ¬(e.AgentId ≠ "" ∧ e.AgentId ≠ agent.Id) := by tauto
    by_cases hpre : listStartsWith "policy:".data e.ActionId.data = true
    · rw [List.cons_append, ackLoop_cons_policy cg sr agent e (l1 ++ rest) acc grouped hok hpre]
      exact ih rest (acc ++ [e.ActionId]) grouped hpass'
    · rw [Bool.not_eq_true] at hpre
      rcases hc : cg e.ActionId with _ | a
      · have hsr : ∃ a, sr e.ActionId = Except.ok a := by
          rcases hres with h | h | h
          · rw [h] at hpre; exact absurd hpre (by simp)
          · rw [hc] at h; exact absurd h (by simp)
          · exact h
        obtain ⟨a, ha⟩ := hsr
        have hres2 : resolveAction cg sr e.ActionId
            = (Except.ok a, [StoreOp.cacheGet e.ActionId,
                StoreOp.storeRead AGENT_ACTION_SAVED_OBJECT_TYPE e.ActionId]) := by
          rw [resolveAction_miss cg sr e.ActionId hc, ha]
        rw [List.cons_append,
            ackLoop_cons_resolve_ok cg sr agent e (l1 ++ rest) acc grouped a _ hok hpre hres2]
        obtain ⟨acc2, grouped2, tr1, heq⟩ := ih rest acc (grouped ++ [(a.ty, a)]) hpass'
        refine ⟨acc2, grouped2,
          [StoreOp.cacheGet e.ActionId,
           StoreOp.storeRead AGENT_ACTION_SAVED_OBJECT_TYPE e.ActionId] ++ tr1, ?_⟩
        rw [heq]
        simp
      · have hres2 : resolveAction cg sr e.ActionId
            = (Except.ok a, [StoreOp.cacheGet e.ActionId]) := resolveAction_hit cg sr e.ActionId a hc
        rw [List.cons_append,
            ackLoop_cons_resolve_ok cg sr agent e (l1 ++ rest) acc grouped a _ hok hpre hres2]
        obtain ⟨acc2, grouped2, tr1, heq⟩ := ih rest acc (grouped ++ [(a.ty, a)]) hpass'
        refine ⟨acc2, grouped2, [StoreOp.cacheGet e.ActionId] ++ tr1, ?_⟩
        rw [heq]
        simp

theorem handleAckEvents_loop_error (cg : String → Option Action)
    (sr : String → Except FleetError Action) (now : String) (mres : Except FleetError Unit)
    (agent : Agent) (events : List Event) (e : FleetError) (tr : List StoreOp)
    (h : ackLoop cg sr agent events [] [] = (Except.error e, tr)) :
    _handleAckEvents cg sr now mres agent events = (Except.error e, tr) := by
  simp [_handleAckEvents, h]

theorem handlePolicyChange_ops (now : String) (mres : Except FleetError Unit)
    (agent : Agent) (ids : List String) :
    ∀ op ∈ (_handlePolicyChange now mres agent ids).2,
      ∃ updates, op = StoreOp.mupdate updates true := by
  intro op hop
  rcases hw : policyWinner agent ids with ⟨found, cr, cc⟩
  rcases found with _ | _
  · simp [_handlePolicyChange, hw] at hop
  · rcases mres with u | e <;>
      · simp [_handlePolicyChange, hw] at hop
        exact ⟨_, hop⟩

theorem handleAckEvents_ops (cg : String → Option Action)
    (sr : String → Except FleetError Action) (now : String) (mres : Except FleetError Unit)
    (agent : Agent) (events : List Event) :
    ∀ op ∈ (_handleAckEvents cg sr now mres agent events).2,
      (∃ ev, ev ∈ events ∧ listStartsWith "policy:".data ev.ActionId.data = false
        ∧ (op = StoreOp.cacheGet ev.ActionId
           ∨ op = StoreOp.storeRead AGENT_ACTION_SAVED_OBJECT_TYPE ev.ActionId))
      ∨ ∃ updates, op = StoreOp.mupdate updates true := by
  intro op hop
  rcases hl : ackLoop cg sr agent events [] [] with ⟨r, tr⟩
  rcases r with e | ⟨policyAcks, grouped⟩
  · rw [handleAckEvents_loop_error cg sr now mres agent events e tr hl] at hop
    exact Or.inl (ackLoop_ops cg sr agent events [] [] op (by rw [hl]; exact hop))
  · by_cases hne : policyAcks ≠ []
    · rcases hpc : _handlePolicyChange now mres agent policyAcks with ⟨r2, tr2⟩
      have hred : _handleAckEvents cg sr now mres agent events = (r2, tr ++ tr2) := by
        simp [_handleAckEvents, hl, hne, hpc]
      rw [hred] at hop
      rcases List.mem_append.mp hop with h | h
      · exact Or.inl (ackLoop_ops cg sr agent events [] [] op (by rw [hl]; exact h))
      · exact Or.inr (handlePolicyChange_ops now mres agent policyAcks op (by rw [hpc]; exact h))
    · have hred : _handleAckEvents cg sr now mres agent events = (Except.ok (), tr) := by
        simp [_handleAckEvents, hl, hne]
      rw [hred] at hop
      exact Or.inl (ackLoop_ops cg sr agent events [] [] op (by rw [hl]; exact hop))

theorem winnerFold_all_none (agent : Agent) :
    ∀ (l : List String), (∀ a ∈ l, parsePolicyAction a = none) →
      ∀ st : Bool × Int × Int, List.foldl (winnerStep agent) st l = st := by
  intro l
  induction l with
  | nil => intro _ st; rfl
  | cons a l ih =>
    intro h st
    rw [List.foldl_cons, winnerStep_none st (h a (List.mem_cons_self _ _))]
    exact ih (fun x hx => h x (List.mem_cons_of_mem _ hx)) st

theorem policyWinner_all_none (agent : Agent) (ids : List String)
    (h : ∀ a ∈ ids, parsePolicyAction a = none) :
    policyWinner agent ids = (false, agentPair agent) :=
  winnerFold_all_none agent ids h (false, agentPair agent)

/-- C4 counterexample: a batch whose first event references an unknown
action (the store read fails) and whose second event carries a mismatched
agent id fails with the store error, not with the agent-mismatch error, so
the claim that any batch containing a mismatched event fails with the
agent-mismatch error is false as stated. -/
theorem handleAckEvents_mismatch_error_overridden :
    ((⟨"A2", "a2"⟩ : Event).AgentId ≠ "" ∧ (⟨"A2", "a2"⟩ : Event).AgentId ≠ "A1")
    ∧ (_handleAckEvents (fun _ => none) (fun _ => Except.error (FleetError.storeErr "boom"))
        "2020-01-01T00:00:00Z" (Except.ok ()) ⟨"A1", "p1", 1, 0⟩
        [⟨"", "a1"⟩, ⟨"A2", "a2"⟩]).1 = Except.error (FleetError.storeErr "boom")
    ∧ (Except.error (FleetError.storeErr "boom") : Except FleetError Unit)
        ≠ Except.error FleetError.eventAgentIdMismatch := by decide

/-- C4 amended: a batch containing an event with a non-empty agent id
different from the owning agents id always fails (no success outcome) and
never issues a store write; the reported error is the agent-mismatch error
provided every event before the mismatching one passes (resolves via cache
or store, or is policy-prefixed); events with an empty agent id pass the
check. -/
theorem handleAckEvents_agent_mismatch_aborts (cg : String → Option Action)
    (sr : String → Except FleetError Action) (now : String) (mres : Except FleetError Unit)
    (agent : Agent) (l1 l2 : List Event) (ev : Event)
    (hmm : ev.AgentId ≠ "" ∧ ev.AgentId ≠ agent.Id) :
    (∃ e, (_handleAckEvents cg sr now mres agent (l1 ++ ev :: l2)).1 = Except.error e)
    ∧ (∀ updates refresh,
        StoreOp.mupdate updates refresh
          ∉ (_handleAckEvents cg sr now mres agent (l1 ++ ev :: l2)).2)
    ∧ ((∀ x ∈ l1, passes cg sr agent x) →
        (_handleAckEvents cg sr now mres agent (l1 ++ ev :: l2)).1
          = Except.error FleetError.eventAgentIdMismatch) := by
  have hmem : ev ∈ l1 ++ ev :: l2 := List.mem_append.mpr (Or.inr (List.mem_cons_self _ _))
  obtain ⟨e0, he0⟩ :=
    ackLoop_error_of_mismatch cg sr agent (l1 ++ ev :: l2) [] [] ⟨ev, hmem, hmm⟩
  rcases hl : ackLoop cg sr agent (l1 ++ ev :: l2) [] [] with ⟨r, tr⟩
  rw [hl] at he0
  simp only at he0
  subst he0
  have hred := handleAckEvents_loop_error cg sr now mres agent (l1 ++ ev :: l2) e0 tr hl
  refine ⟨⟨e0, by rw [hred]⟩, ?_, ?_⟩
  · intro updates refresh hmem2
    rw [hred] at hmem2
    obtain ⟨ev', _, _, hor⟩ :=
      ackLoop_ops cg sr agent (l1 ++ ev :: l2) [] [] _ (by rw [hl]; exact hmem2)
    rcases hor with h | h <;> exact StoreOp.noConfusion h
  · intro hpass
    obtain ⟨acc2, grouped2, tr1, heq⟩ :=
      ackLoop_append_pass cg sr agent l1 (ev :: l2) [] [] hpass
    rw [ackLoop_cons_mismatch cg sr agent ev l2 acc2 grouped2 hmm] at heq
    rw [hl] at heq
    simp only [Prod.mk.injEq] at heq
    rw [hred]
    simpa using heq.1

/-- C4 witness: with a store that resolves every action, a batch whose
second event carries a foreign agent id fails with the agent-mismatch
error. -/
theorem handleAckEvents_agent_mismatch_aborts_witness :
    (_handleAckEvents (fun _ => none) (fun _ => Except.ok ⟨"a1", "T"⟩)
      "2020-01-01T00:00:00Z" (Except.ok ()) ⟨"A1", "p1", 1, 0⟩
      ([⟨"", "a1"⟩] ++ ⟨"A2", "a2"⟩ :: [])).1
      = Except.error FleetError.eventAgentIdMismatch :=
  (handleAckEvents_agent_mismatch_aborts (fun _ => none) (fun _ => Except.ok ⟨"a1", "T"⟩)
    "2020-01-01T00:00:00Z" (Except.ok ()) ⟨"A1", "p1", 1, 0⟩
    [⟨"", "a1"⟩] [] ⟨"A2", "a2"⟩ (by decide)).2.2
    (by
      intro x hx
      simp only [List.mem_singleton] at hx
      subst hx
      exact ⟨Or.inl rfl, Or.inr (Or.inr ⟨⟨"a1", "T"⟩, rfl⟩)⟩)

/-- C6: policy-prefixed action ids are never resolved (no cache probe and no
store read is ever keyed by a policy-prefixed id), and a batch whose events
all carry policy-prefixed but unparseable action ids (with the agent check
passing) succeeds with no store operation at all and no error. -/
theorem handleAckEvents_policy_prefixed_unresolved (cg : String → Option Action)
    (sr : String → Except FleetError Action) (now : String) (mres : Except FleetError Unit)
    (agent : Agent) (events : List Event) :
    (∀ id : String, listStartsWith "policy:".data id.data = true →
       StoreOp.cacheGet id ∉ (_handleAckEvents cg sr now mres agent events).2
       ∧ ∀ t, StoreOp.storeRead t id ∉ (_handleAckEvents cg sr now mres agent events).2)
    ∧ ((∀ ev ∈ events, (ev.AgentId = "" ∨ ev.AgentId = agent.Id)
         ∧ listStartsWith "policy:".data ev.ActionId.data = true
         ∧ parsePolicyAction ev.ActionId = none) →
       _handleAckEvents cg sr now mres agent events = (Except.ok (), [])) := by
  constructor
  · intro id hpre
    constructor
    · intro hmem
      rcases handleAckEvents_ops cg sr now mres agent events _ hmem with ⟨ev, _, hf, hor⟩ | ⟨u, h⟩
      · rcases hor with h | h
        · injection h with h'
          rw [h'] at hpre
          rw [hpre] at hf
          exact Bool.noConfusion hf
        · exact StoreOp.noConfusion h
      · exact StoreOp.noConfusion h
    · intro t hmem
      rcases handleAckEvents_ops cg sr now mres agent events _ hmem with ⟨ev, _, hf, hor⟩ | ⟨u, h⟩
      · rcases hor with h | h
        · exact StoreOp.noConfusion h
        · injection h with h1 h2
          rw [h2] at hpre
          rw [hpre] at hf
          exact Bool.noConfusion hf
      · exact StoreOp.noConfusion h
  · intro hall
    have hloop := ackLoop_all_policy cg sr agent events [] []
      (fun ev hv => ⟨(hall ev hv).1, (hall ev hv).2.1⟩)
    rcases events with _ | ⟨ev0, rest⟩
    · simp [_handleAckEvents, hloop]
    · simp only [List.nil_append, List.map_cons] at hloop
      have hnone : ∀ a ∈ ev0.ActionId :: rest.map (fun ev => ev.ActionId),
          parsePolicyAction a = none := by
        intro a ha
        rcases List.mem_cons.mp ha with h | h
        · rw [h]; exact (hall ev0 (List.mem_cons_self _ _)).2.2
        · obtain ⟨ev, hv, hva⟩ := List.mem_map.mp h
          rw [← hva]
          exact (hall ev (List.mem_cons_of_mem _ hv)).2.2
      have hwin := policyWinner_all_none agent _ hnone
      have hpc : _handlePolicyChange now mres agent
          (ev0.ActionId :: rest.map fun ev => ev.ActionId) = (Except.ok (), []) := by
        simp [_handlePolicyChange, hwin]
      simp [_handleAckEvents, hloop, hpc]

/-- C6 witness: a batch whose only event carries the unparseable
policy-prefixed action id policy:zzz succeeds with no store operation and no
error, without ever consulting the cache or the (always failing) store. -/
theorem handleAckEvents_policy_prefixed_unresolved_witness :
    _handleAckEvents (fun _ => none) (fun _ => Except.error (FleetError.storeErr "boom"))
      "2020-01-01T00:00:00Z" (Except.ok ()) ⟨"A1", "p1", 1, 0⟩
      [⟨"", "policy:zzz"⟩] = (Except.ok (), []) :=
  (handleAckEvents_policy_prefixed_unresolved (fun _ => none)
    (fun _ => Except.error (FleetError.storeErr "boom"))
    "2020-01-01T00:00:00Z" (Except.ok ()) ⟨"A1", "p1", 1, 0⟩
    [⟨"", "policy:zzz"⟩]).2 (by decide)

/-- C7: resolving a non-policy event probes the cache first and a hit issues
no store read; a miss issues exactly one store read keyed by the action id
whose response (including any failure) is surfaced verbatim; and a failing
store read aborts the whole batch with that error, with no store write
issued — no partial-success path. -/
theorem resolveAction_cache_store_contract (cg : String → Option Action)
    (sr : String → Except FleetError Action) (now : String) (mres : Except FleetError Unit)
    (agent : Agent) (id : String) :
    (∀ a, cg id = some a → resolveAction cg sr id = (Except.ok a, [StoreOp.cacheGet id]))
    ∧ (cg id = none → resolveAction cg sr id
        = (sr id, [StoreOp.cacheGet id, StoreOp.storeRead AGENT_ACTION_SAVED_OBJECT_TYPE id]))
    ∧ ∀ (l1 l2 : List Event) (ev : Event) (e : FleetError),
        (∀ x ∈ l1, passes cg sr agent x) →
        (ev.AgentId = "" ∨ ev.AgentId = agent.Id) →
        listStartsWith "policy:".data ev.ActionId.data = false →
        cg ev.ActionId = none →
        sr ev.ActionId = Except.error e →
        (_handleAckEvents cg sr now mres agent (l1 ++ ev :: l2)).1 = Except.error e
        ∧ ∀ updates refresh, StoreOp.mupdate updates refresh
            ∉ (_handleAckEvents cg sr now mres agent (l1 ++ ev :: l2)).2 := by
  refine ⟨fun a h => resolveAction_hit cg sr id a h, fun h => resolveAction_miss cg sr id h, ?_⟩
  intro l1 l2 ev e hpass hagent hpre hc hsr
  have hok : ¬(ev.AgentId ≠ "" ∧ ev.AgentId ≠ agent.Id) := by tauto
  have hres : resolveAction cg sr ev.ActionId
      = (Except.error e, [StoreOp.cacheGet ev.ActionId,
          StoreOp.storeRead AGENT_ACTION_SAVED_OBJECT_TYPE ev.ActionId]) := by
    rw [resolveAction_miss cg sr ev.ActionId hc, hsr]
  obtain ⟨acc2, grouped2, tr1, heq⟩ := ackLoop_append_pass cg sr agent l1 (ev :: l2) [] [] hpass
  rw [ackLoop_cons_resolve_err cg sr agent ev l2 acc2 grouped2 e _ hok hpre hres] at heq
  have hred := handleAckEvents_loop_error cg sr now mres agent (l1 ++ ev :: l2) e _ heq
  constructor
  · rw [hred]
  · intro updates refresh hmem2
    rw [hred] at hmem2
    obtain ⟨ev', _, _, hor⟩ :=
      ackLoop_ops cg sr agent (l1 ++ ev :: l2) [] [] _ (by rw [heq]; exact hmem2)
    rcases hor with h | h <;> exact StoreOp.noConfusion h

/-- C7 witness: a cache hit resolves without a store read; a cache miss
issues exactly one store read whose not-found failure is surfaced verbatim
and aborts a single-event batch with that error. -/
theorem resolveAction_cache_store_contract_witness :
    resolveAction (fun s => if s = "hit" then some ⟨"hit", "T"⟩ else none)
        (fun _ => Except.error (FleetError.storeErr "not found")) "hit"
      = (Except.ok ⟨"hit", "T"⟩, [StoreOp.cacheGet "hit"])
    ∧ resolveAction (fun s => if s = "hit" then some ⟨"hit", "T"⟩ else none)
        (fun _ => Except.error (FleetError.storeErr "not found")) "miss"
      = (Except.error (FleetError.storeErr "not found"),
         [StoreOp.cacheGet "miss", StoreOp.storeRead AGENT_ACTION_SAVED_OBJECT_TYPE "miss"])
    ∧ (_handleAckEvents (fun s => if s = "hit" then some ⟨"hit", "T"⟩ else none)
        (fun _ => Except.error (FleetError.storeErr "not found"))
        "2020-01-01T00:00:00Z" (Except.ok ()) ⟨"A1", "p1", 1, 0⟩
        ([] ++ ⟨"", "miss"⟩ :: [])).1 = Except.error (FleetError.storeErr "not found") :=
  ⟨(resolveAction_cache_store_contract (fun s => if s = "hit" then some ⟨"hit", "T"⟩ else none)
      (fun _ => Except.error (FleetError.storeErr "not found"))
      "2020-01-01T00:00:00Z" (Except.ok ()) ⟨"A1", "p1", 1, 0⟩ "hit").1 ⟨"hit", "T"⟩ (by decide),
   by decide,
   ((resolveAction_cache_store_contract (fun s => if s = "hit" then some ⟨"hit", "T"⟩ else none)
      (fun _ => Except.error (FleetError.storeErr "not found"))
      "2020-01-01T00:00:00Z" (Except.ok ()) ⟨"A1", "p1", 1, 0⟩ "miss").2.2
      [] [] ⟨"", "miss"⟩ (FleetError.storeErr "not found")
      (fun x hx => absurd hx (List.not_mem_nil x)) (Or.inl rfl) (by decide) (by decide) rfl).1⟩

/-- C10: parsePolicyAction returns segment 1 verbatim (uncanonicalised) as
the policyId, and a parsed candidate whose policyId differs as a string from
the agents current policy id (for instance an uppercase textual form of the
same UUID) is never eligible: a batch holding only that candidate performs
no write and succeeds. -/
theorem parsePolicyAction_verbatim_segment (now : String) (mres : Except FleetError Unit)
    (agent : Agent) (c : String) (pa : policyAction)
    (hp : parsePolicyAction c = some pa) (hne : pa.policyId ≠ agent.PolicyId) :
    pa.policyId = String.mk ((splitChar ':' c.data).getD 1 [])
    ∧ _handlePolicyChange now mres agent [c] = (Except.ok (), []) := by
  constructor
  · unfold parsePolicyAction at hp
    simp only [ne_eq] at hp
    split at hp
    · simp at hp
    · split at hp
      · simp at hp
      · split at hp
        · simp at hp
        · split at hp
          · simp at hp
          · split at hp
            · simp at hp
            · injection hp with h
              rw [← h]
  · have hwin : policyWinner agent [c] = (false, agentPair agent) := by
      unfold policyWinner
      rw [List.foldl_cons, winnerStep_skip _ hp (fun h => hne h.1), List.foldl_nil]
      rfl
    simp [_handlePolicyChange, hwin]

/-- C10 witness: the uppercase textual form of the agents policy UUID parses
(the UUID validator is case-insensitive), is returned verbatim, differs as a
string from the agents policy id, and triggers no write. -/
theorem parsePolicyAction_verbatim_segment_witness :
    parsePolicyAction "policy:6BA7B810-9DAD-11D1-80B4-00C04FD430C8:9:9"
      = some ⟨"6BA7B810-9DAD-11D1-80B4-00C04FD430C8", 9, 9⟩
    ∧ ("6BA7B810-9DAD-11D1-80B4-00C04FD430C8" : String)
        ≠ "6ba7b810-9dad-11d1-80b4-00c04fd430c8"
    ∧ ((⟨"6BA7B810-9DAD-11D1-80B4-00C04FD430C8", 9, 9⟩ : policyAction).policyId
        = String.mk ((splitChar ':'
            "policy:6BA7B810-9DAD-11D1-80B4-00C04FD430C8:9:9".data).getD 1 [])
      ∧ _handlePolicyChange "2020-01-01T00:00:00Z" (Except.ok ())
          ⟨"A1", "6ba7b810-9dad-11d1-80b4-00c04fd430c8", 1, 0⟩
          ["policy:6BA7B810-9DAD-11D1-80B4-00C04FD430C8:9:9"] = (Except.ok (), [])) :=
  ⟨by decide, by decide,
   parsePolicyAction_verbatim_segment "2020-01-01T00:00:00Z" (Except.ok ())
     ⟨"A1", "6ba7b810-9dad-11d1-80b4-00c04fd430c8", 1, 0⟩
     "policy:6BA7B810-9DAD-11D1-80B4-00C04FD430C8:9:9"
     ⟨"6BA7B810-9DAD-11D1-80B4-00C04FD430C8", 9, 9⟩ (by decide) (by decide)⟩

end FleetAck

